import Mathlib

/-!
# Verification of the oggopus streaming decoder

A shallow embedding of the `oggopus` Go package (files `oggreader.go` and
`opusreader.go`) together with proofs about its behaviour.

Conventions of the embedding:
* Go byte slices become `List Nat` (each element a byte value `0..255`);
  indexing or slicing past the end of a list models the Go runtime's
  out-of-range panic and is made explicit with `Option` or a dedicated
  result constructor.
* Go `int` fields become `Int`; Go unsigned bytes and counts become `Nat`.
* Stateful methods become explicit state-passing functions; the byte
  stream feeding the Ogg layer is modelled as a list of page inputs, each
  carrying the fields the 27-byte little-endian header decodes to, the
  segment table and the page body.
-/

namespace OggOpus

/-! ## Opus TOC interpreter (`opusreader.go`, `getSamplesPerFrame`) -/

/-- Body of Go `getSamplesPerFrame(data []byte)` applied to the first
payload byte `b0 = data[0]` (the only byte the function reads).
`fs = 48000` is the fixed reference rate. -/
def samplesPerFrameOfByte (b0 : Nat) : Nat :=
  let fs := 48000
  if b0 &&& 0x80 ≠ 0 then
    (fs <<< ((b0 >>> 3) &&& 0x3)) / 400
  else if b0 &&& 0x60 = 0x60 then
    (if b0 &&& 0x8 ≠ 0 then fs / 50 else fs / 100)
  else
    (if (b0 >>> 3) &&& 0x3 = 3 then fs * 60 / 1000
     else (fs <<< ((b0 >>> 3) &&& 0x3)) / 100)

/-- Go `getSamplesPerFrame(data []byte)`: reads `data[0]` and derives the
per-frame sample count; `none` models the out-of-range panic on an empty
slice (the callers guard this with the invalid-TOC length check). -/
def getSamplesPerFrame (data : List Nat) : Option Nat :=
  match data with
  | [] => none
  | b0 :: _ => some (samplesPerFrameOfByte b0)

/-- Samples-per-frame table exactly as the specification words it
(spec section 4.2): CELT when bit 7 is set, Hybrid when bits 7..5 are
`011` with bit 3 selecting 960 vs 480, SILK otherwise. -/
def samplesPerFrameSpec (b0 : Nat) : Nat :=
  if b0.testBit 7 then
    (48000 <<< ((b0 >>> 3) &&& 0x3)) / 400
  else if (b0 >>> 5) &&& 0x7 = 3 then
    (if b0.testBit 3 then 48000 / 50 else 48000 / 100)
  else
    (if (b0 >>> 3) &&& 0x3 = 3 then 48000 * 60 / 1000
     else (48000 <<< ((b0 >>> 3) &&& 0x3)) / 100)

/-- Go `getFramesNumberInPacket(packet []byte)`: frame count from the
packing code `packet[0] & 3`; `none` models the out-of-range panic
(empty payload, or code 3 with a single-byte payload). -/
def getFramesNumberInPacket (packet : List Nat) : Option Nat :=
  match packet with
  | [] => none
  | b0 :: rest =>
    let code := b0 &&& 3
    if code = 0 then some 1
    else if code ≠ 3 then some 2
    else
      match rest with
      | [] => none
      | b1 :: _ => some (b1 &&& 0x3F)

/-! ## Opus packet configuration (`opusreader.go`, `readPacketConfig`) -/

/-- Go struct `OPUSPacketConfig`: TOC byte fields plus the frame count,
per-frame sample count and their product. The three counts are Go `int`
fields, modelled as `Int`. -/
structure OPUSPacketConfig where
  ConfigCode : Nat
  SoundMode : Nat
  FramesNumber : Int
  SamplesNumberPerFrame : Int
  TotalSamples : Int
deriving DecidableEq, Repr

/-- Go struct `OPUSPacket`: decoded configuration plus the raw payload. -/
structure OPUSPacket where
  config : OPUSPacketConfig
  PacketData : List Nat
deriving DecidableEq, Repr

/-- Go method `(*OPUSPacket).readPacketConfig`: fails (`none`, source
error "opusreader: invalid TOC byte") on an empty payload, otherwise
decodes the TOC byte; `none` also models the out-of-range panic inside
`getFramesNumberInPacket` for a code-3 payload of length one. -/
def readPacketConfig (data : List Nat) : Option OPUSPacketConfig :=
  match data with
  | [] => none
  | b0 :: _ =>
    match getFramesNumberInPacket data with
    | none => none
    | some fr =>
      some { ConfigCode := (b0 >>> 3) &&& 31
             SoundMode := (b0 >>> 2) &&& 1
             FramesNumber := (fr : Int)
             SamplesNumberPerFrame := (samplesPerFrameOfByte b0 : Int)
             TotalSamples := (fr : Int) * (samplesPerFrameOfByte b0 : Int) }

/-! ## Opus reader per-packet processing (`opusreader.go`, `NextPacket`) -/

/-- Mutable fields of Go struct `OPUSReader` that the audio-packet loop
touches after header initialization (`PreSkip` is fixed by the headers
and passed separately). -/
structure OPUSReaderState where
  skipped : Int
  LastPacket : Bool
  Duration : Int
deriving DecidableEq, Repr

/-- The pre-skip and duration block at the end of Go
`(*OPUSReader).NextPacket`: under the `SamplesNumberPerFrame > 0` and
`FramesNumber > 0` guards, subtract `min(needsSkip, TotalSamples)` from
the reported samples, add it to `skipped`, and accumulate the duration in
microseconds. Returns the (possibly adjusted) packet, the new `skipped`
and the new `Duration`. -/
def processAudioPacket (preSkip skipped duration : Int) (p : OPUSPacket) :
    OPUSPacket × Int × Int :=
  if p.config.SamplesNumberPerFrame > 0 then
    if p.config.FramesNumber > 0 then
      let needsSkip := preSkip - skipped
      let ts :=
        if needsSkip > 0 then
          let skip :=
            if p.config.TotalSamples < needsSkip then p.config.TotalSamples else needsSkip
          (p.config.TotalSamples - skip, skipped + skip)
        else (p.config.TotalSamples, skipped)
      ({ p with config := { p.config with TotalSamples := ts.1 } }, ts.2,
        duration + ts.1 * 1000000 / 48000)
    else (p, skipped, duration)
  else (p, skipped, duration)

/-- The result of one Opus-layer pull from the Ogg layer, as the Opus
reader observes it: the packet bytes together with the value of the Ogg
reader's `lastPacket` latch right after the pull. -/
abbrev OggPull := List Nat × Bool

/-- Errors the Opus layer's `NextPacket` surfaces: "opusreader: EOS",
a short read from the exhausted underlying stream, and
"opusreader: invalid TOC byte" (which also stands for the unchecked
`payload[1]` access of a short code-3 packet). -/
inductive OpusErr where
  | eos
  | shortRead
  | invalidTOC
deriving DecidableEq, Repr

/-- Go `(*OPUSReader).NextPacket` for an already initialized reader,
driven by the list of pulls the Ogg layer will deliver: check the
`LastPacket` latch, pull a packet, decode its TOC, copy the Ogg layer's
latch, silently skip packets whose first two bytes are `O` `p`
(recursing on the remaining pulls), and otherwise apply pre-skip and
duration bookkeeping and return the annotated packet together with the
new state and the unconsumed pulls. -/
def opusNextFrom (preSkip : Int) :
    OPUSReaderState → List OggPull →
      Except OpusErr (OPUSPacket × OPUSReaderState × List OggPull)
  | st, inputs =>
    if st.LastPacket then .error .eos
    else
      match inputs with
      | [] => .error .shortRead
      | (pkt, latch) :: rest =>
        match readPacketConfig pkt with
        | none => .error .invalidTOC
        | some cfg =>
          let st1 := if latch then { st with LastPacket := true } else st
          if pkt.take 2 = [79, 112] then
            opusNextFrom preSkip st1 rest
          else
            let r := processAudioPacket preSkip st1.skipped st1.Duration
              { config := cfg, PacketData := pkt }
            .ok (r.1, { st1 with skipped := r.2.1, Duration := r.2.2 }, rest)

/-- Iterated `NextPacket` calls: perform up to `fuel` successful calls,
stopping at the first error, and collect the packets returned. -/
def opusRunFrom (preSkip : Int) :
    Nat → OPUSReaderState → List OggPull → List OPUSPacket × OPUSReaderState
  | 0, st, _ => ([], st)
  | fuel + 1, st, inputs =>
    match opusNextFrom preSkip st inputs with
    | .error _ => ([], st)
    | .ok (p, st1, rest) =>
      let r := opusRunFrom preSkip fuel st1 rest
      (p :: r.1, r.2)

/-! ## Claims C1 and C2: the TOC interpreter -/

/-- C1: for every Opus audio packet with non-empty payload and first byte
`b0`, the samples-per-frame computed by the TOC interpreter
(`getSamplesPerFrame`, whose body on `data[0] = b0` is
`samplesPerFrameOfByte`) equals the specification's table
(`samplesPerFrameSpec`): CELT packets (bit 7 set) give
`(48000 <<< ((b0 >>> 3) &&& 3)) / 400`, one of 120, 240, 480, 960;
Hybrid packets (bits 7..5 = 011) give 960 when bit 3 is set and 480
otherwise; SILK packets give 2880 when `(b0 >>> 3) &&& 3 = 3` and
`(48000 <<< s) / 100`, one of 480, 960, 1920, otherwise. The branches
are exhaustive over all 256 byte values. -/
theorem samples_per_frame_matches_spec_table (b0 : Nat) (h : b0 < 256) (rest : List Nat) :
    getSamplesPerFrame (b0 :: rest) = some (samplesPerFrameSpec b0) ∧
    (b0.testBit 7 = true →
      (samplesPerFrameOfByte b0 = 120 ∨ samplesPerFrameOfByte b0 = 240 ∨
       samplesPerFrameOfByte b0 = 480 ∨ samplesPerFrameOfByte b0 = 960)) ∧
    (b0.testBit 7 = false → (b0 >>> 5) &&& 0x3 = 3 →
      (samplesPerFrameOfByte b0 = if b0.testBit 3 then 960 else 480)) ∧
    (b0.testBit 7 = false → (b0 >>> 5) &&& 0x3 ≠ 3 →
      (samplesPerFrameOfByte b0 = 2880 ∨ samplesPerFrameOfByte b0 = 480 ∨
       samplesPerFrameOfByte b0 = 960 ∨ samplesPerFrameOfByte b0 = 1920)) := by
  have hg : getSamplesPerFrame (b0 :: rest) = some (samplesPerFrameOfByte b0) := rfl
  rw [hg, Option.some_inj]
  clear hg
  refine ⟨?_, ?_, ?_, ?_⟩ <;> revert b0 <;>
    set_option maxRecDepth 20000 in decide

/-- Witness for C1 at the concrete TOC byte 0x78 (config 15, Hybrid,
code 0), which the spec's own scenario expects to give 960 samples. -/
theorem samples_per_frame_matches_spec_table_witness :
    getSamplesPerFrame (0x78 :: []) = some (samplesPerFrameSpec 0x78) ∧
    ((0x78 : Nat).testBit 7 = true →
      (samplesPerFrameOfByte 0x78 = 120 ∨ samplesPerFrameOfByte 0x78 = 240 ∨
       samplesPerFrameOfByte 0x78 = 480 ∨ samplesPerFrameOfByte 0x78 = 960)) ∧
    ((0x78 : Nat).testBit 7 = false → ((0x78 : Nat) >>> 5) &&& 0x3 = 3 →
      (samplesPerFrameOfByte 0x78 = if (0x78 : Nat).testBit 3 then 960 else 480)) ∧
    ((0x78 : Nat).testBit 7 = false → ((0x78 : Nat) >>> 5) &&& 0x3 ≠ 3 →
      (samplesPerFrameOfByte 0x78 = 2880 ∨ samplesPerFrameOfByte 0x78 = 480 ∨
       samplesPerFrameOfByte 0x78 = 960 ∨ samplesPerFrameOfByte 0x78 = 1920)) :=
  samples_per_frame_matches_spec_table 0x78 (by decide) []

/-- C2: frames-per-packet from the packing code `p = b0 &&& 3`: one frame
when `p = 0`, two frames when `p = 1` or `p = 2`, and `payload[1] &&& 0x3F`
frames when `p = 3` and the payload has at least two bytes. -/
theorem frames_per_packet_matches_code (b0 b1 : Nat) (rest : List Nat) :
    (b0 &&& 3 = 0 → getFramesNumberInPacket (b0 :: rest) = some 1) ∧
    ((b0 &&& 3 = 1 ∨ b0 &&& 3 = 2) → getFramesNumberInPacket (b0 :: rest) = some 2) ∧
    (b0 &&& 3 = 3 → getFramesNumberInPacket (b0 :: b1 :: rest) = some (b1 &&& 0x3F)) := by
  refine ⟨fun h => ?_, fun h => ?_, fun h => ?_⟩
  · simp [getFramesNumberInPacket, h]
  · rcases h with h | h <;> simp [getFramesNumberInPacket, h]
  · simp [getFramesNumberInPacket, h]

/-- Witness for C2 at packing codes 0, 1 and 3. -/
theorem frames_per_packet_matches_code_witness :
    getFramesNumberInPacket [0] = some 1 ∧
    getFramesNumberInPacket [1] = some 2 ∧
    getFramesNumberInPacket [3, 200] = some (200 &&& 0x3F) :=
  ⟨(frames_per_packet_matches_code 0 0 []).1 (by decide),
   (frames_per_packet_matches_code 1 0 []).2.1 (Or.inl (by decide)),
   (frames_per_packet_matches_code 3 200 []).2.2 (by decide)⟩

/-! ## Claim C3: pre-skip bookkeeping -/

/-- C3: for a returned audio packet with raw sample count
`TotalSamples = FramesNumber * SamplesNumberPerFrame` and
`need = preSkip - skipped`: when `need > 0` the reported total becomes
`raw - min need raw` and `skipped` grows by `min need raw`; when
`need ≤ 0` both are unchanged. Hence a pre-skip at most the packet's
raw samples is consumed entirely on that packet (`skipped` reaches
`preSkip`), a larger one zeroes the packet and carries the remainder to
successive packets, and the payload bytes are never modified. -/
theorem preskip_bookkeeping_step (preSkip skipped duration : Int) (p : OPUSPacket)
    (hfr : 0 ≤ p.config.FramesNumber) (hspf : 0 < p.config.SamplesNumberPerFrame)
    (hts : p.config.TotalSamples = p.config.FramesNumber * p.config.SamplesNumberPerFrame) :
    (processAudioPacket preSkip skipped duration p).1.PacketData = p.PacketData ∧
    (preSkip - skipped > 0 →
      (processAudioPacket preSkip skipped duration p).1.config.TotalSamples
        = p.config.TotalSamples - min (preSkip - skipped) p.config.TotalSamples ∧
      (processAudioPacket preSkip skipped duration p).2.1
        = skipped + min (preSkip - skipped) p.config.TotalSamples) ∧
    (preSkip - skipped ≤ 0 →
      (processAudioPacket preSkip skipped duration p).1.config.TotalSamples
        = p.config.TotalSamples ∧
      (processAudioPacket preSkip skipped duration p).2.1 = skipped) ∧
    (preSkip - skipped > 0 → preSkip - skipped ≤ p.config.TotalSamples →
      (processAudioPacket preSkip skipped duration p).2.1 = preSkip) ∧
    (preSkip - skipped > 0 → p.config.TotalSamples < preSkip - skipped →
      (processAudioPacket preSkip skipped duration p).2.1 = skipped + p.config.TotalSamples ∧
      (processAudioPacket preSkip skipped duration p).1.config.TotalSamples = 0) := by
  constructor
  · simp only [processAudioPacket]
    split_ifs <;> rfl
  · by_cases hf : p.config.FramesNumber > 0
    · clear hts
      simp only [processAudioPacket, if_pos hspf, if_pos hf, min_def]
      split_ifs <;>
        simp only [eq_self_iff_true, and_self, and_true, true_and, implies_true] <;>
        first
          | trivial
          | omega
    · have hf0 : p.config.FramesNumber = 0 := le_antisymm (not_lt.1 hf) hfr
      have hraw : p.config.TotalSamples = 0 := by rw [hts, hf0]; ring
      clear hts
      simp only [processAudioPacket, if_pos hspf, if_neg hf, min_def]
      split_ifs <;>
        simp only [eq_self_iff_true, and_self, and_true, true_and, implies_true] <;>
        first
          | trivial
          | omega

/-- Witness for C3: a two-frame 960-sample packet against a pre-skip of
100 with nothing skipped yet. -/
theorem preskip_bookkeeping_step_witness :
    (processAudioPacket 100 0 0 ⟨⟨15, 0, 2, 960, 1920⟩, [120, 1]⟩).1.config.TotalSamples
      = 1920 - min (100 - 0 : Int) 1920 ∧
    (processAudioPacket 100 0 0 ⟨⟨15, 0, 2, 960, 1920⟩, [120, 1]⟩).2.1
      = 0 + min (100 - 0 : Int) 1920 :=
  (preskip_bookkeeping_step 100 0 0 ⟨⟨15, 0, 2, 960, 1920⟩, [120, 1]⟩
    (by decide) (by decide) (by decide)).2.1 (by decide)

/-! ## Claim C4: duration accumulation -/

/-- Every branch of `getSamplesPerFrame` yields a positive count. -/
theorem samplesPerFrameOfByte_pos (b0 : Nat) : 0 < samplesPerFrameOfByte b0 := by
  have h3 : (b0 >>> 3) &&& 0x3 ≤ 3 := Nat.and_le_right
  have h4 : (b0 >>> 3) &&& 0x3 = 0 ∨ (b0 >>> 3) &&& 0x3 = 1 ∨
      (b0 >>> 3) &&& 0x3 = 2 ∨ (b0 >>> 3) &&& 0x3 = 3 := by omega
  unfold samplesPerFrameOfByte
  rcases h4 with h | h | h | h <;> rw [h] <;> split_ifs <;> simp_all

/-- A successfully decoded packet configuration has a nonnegative frame
count, a positive per-frame sample count, and their product as total. -/
theorem readPacketConfig_fields (data : List Nat) (cfg : OPUSPacketConfig)
    (h : readPacketConfig data = some cfg) :
    0 ≤ cfg.FramesNumber ∧ 0 < cfg.SamplesNumberPerFrame ∧
    cfg.TotalSamples = cfg.FramesNumber * cfg.SamplesNumberPerFrame := by
  cases data with
  | nil => simp [readPacketConfig] at h
  | cons b0 rest =>
    simp only [readPacketConfig] at h
    cases hg : getFramesNumberInPacket (b0 :: rest) with
    | none => rw [hg] at h; simp at h
    | some fr =>
      rw [hg] at h
      simp only [Option.some_inj] at h
      cases h
      refine ⟨Int.natCast_nonneg fr, ?_, rfl⟩
      show (0 : Int) < (samplesPerFrameOfByte b0 : Int)
      exact_mod_cast samplesPerFrameOfByte_pos b0

/-- The pre-skip block adds exactly the packet's post-pre-skip
`TotalSamples`, converted to microseconds, to the duration. -/
theorem processAudioPacket_duration_eq (preSkip skipped duration : Int) (p : OPUSPacket)
    (hfr : 0 ≤ p.config.FramesNumber) (hspf : 0 < p.config.SamplesNumberPerFrame)
    (hts : p.config.TotalSamples = p.config.FramesNumber * p.config.SamplesNumberPerFrame) :
    (processAudioPacket preSkip skipped duration p).2.2
      = duration
        + (processAudioPacket preSkip skipped duration p).1.config.TotalSamples
          * 1000000 / 48000 := by
  by_cases hf : p.config.FramesNumber > 0
  · simp only [processAudioPacket, if_pos hspf, if_pos hf]
  · have hf0 : p.config.FramesNumber = 0 := le_antisymm (not_lt.1 hf) hfr
    have hraw : p.config.TotalSamples = 0 := by simp [hts, hf0]
    simp [processAudioPacket, if_pos hspf, if_neg hf, hraw]

/-- A successful `NextPacket` call increments the duration by the
returned packet's post-pre-skip samples in microseconds. -/
theorem opusNextFrom_duration (preSkip : Int) (inputs : List OggPull) :
    ∀ (st : OPUSReaderState) (p : OPUSPacket) (st1 : OPUSReaderState)
      (rest : List OggPull),
      opusNextFrom preSkip st inputs = .ok (p, st1, rest) →
      st1.Duration = st.Duration + p.config.TotalSamples * 1000000 / 48000 := by
  induction inputs with
  | nil =>
    intro st p st1 rest h
    rw [opusNextFrom] at h
    split_ifs at h
  | cons hd tl ih =>
    intro st p st1 rest h
    rw [opusNextFrom] at h
    by_cases hlp : st.LastPacket
    · rw [if_pos hlp] at h; exact absurd h (by simp)
    · rw [if_neg hlp] at h
      obtain ⟨pkt, latch⟩ := hd
      cases hc : readPacketConfig pkt with
      | none => rw [hc] at h; exact absurd h (by simp)
      | some cfg =>
        rw [hc] at h
        simp only at h
        by_cases hop : pkt.take 2 = [79, 112]
        · rw [if_pos hop] at h
          have := ih _ p st1 rest h
          rw [this]
          cases latch <;> simp
        · rw [if_neg hop] at h
          simp only [Except.ok.injEq, Prod.mk.injEq] at h
          obtain ⟨hp, hst, hrest⟩ := h
          obtain ⟨hfr, hspf, hts⟩ := readPacketConfig_fields pkt cfg hc
          have hd := processAudioPacket_duration_eq preSkip
            (if latch then { st with LastPacket := true } else st).skipped
            (if latch then { st with LastPacket := true } else st).Duration
            { config := cfg, PacketData := pkt } hfr hspf hts
          rw [← hst]
          simp only []
          rw [hd, ← hp]
          cases latch <;> simp

/-- C4: after any number of `NextPacket` calls, the accumulated duration
equals its starting value plus the sum, over exactly the packets
returned, of `TotalSamples * 1000000 / 48000` computed per packet with
integer arithmetic, where `TotalSamples` is the post-pre-skip value;
packets skipped by the `Op` heuristic never appear in the returned list
and so contribute nothing. -/
theorem duration_accumulates_returned_samples (preSkip : Int) (fuel : Nat)
    (st : OPUSReaderState) (inputs : List OggPull) :
    (opusRunFrom preSkip fuel st inputs).2.Duration
      = st.Duration
        + (((opusRunFrom preSkip fuel st inputs).1).map
            (fun p => p.config.TotalSamples * 1000000 / 48000)).sum := by
  induction fuel generalizing st inputs with
  | zero => simp [opusRunFrom]
  | succ n ih =>
    rw [opusRunFrom]
    cases h : opusNextFrom preSkip st inputs with
    | error e => simp
    | ok v =>
      obtain ⟨p, st1, rest⟩ := v
      have hdur := opusNextFrom_duration preSkip inputs st p st1 rest h
      simp only [List.map_cons, List.sum_cons]
      rw [ih st1 rest, hdur]
      ring

/-! ## Claim C9: the `Op` auxiliary-packet skip -/

/-- C9: when the pulled packet's first two bytes are ASCII `O` `p`
(values 79 and 112) — even when it is a real audio packet whose TOC byte
is 0x4F — the call never returns it: it equals the recursive call on the
remaining pulls, from a state whose `skipped` counter and `Duration` are
unchanged (only the `LastPacket` latch is copied from the Ogg layer). -/
theorem op_prefixed_packet_skipped (preSkip : Int) (st : OPUSReaderState)
    (pkt : List Nat) (latch : Bool) (rest : List OggPull)
    (hlp : st.LastPacket = false) (hop : pkt.take 2 = [79, 112]) :
    opusNextFrom preSkip st ((pkt, latch) :: rest)
      = opusNextFrom preSkip (if latch then { st with LastPacket := true } else st) rest ∧
    (if latch then { st with LastPacket := true } else st).skipped = st.skipped ∧
    (if latch then { st with LastPacket := true } else st).Duration = st.Duration := by
  obtain ⟨a, t, rfl⟩ : ∃ a t, pkt = a :: t := by
    cases pkt with
    | nil => simp at hop
    | cons a t => exact ⟨a, t, rfl⟩
  obtain ⟨b, u, rfl⟩ : ∃ b u, t = b :: u := by
    cases t with
    | nil => simp at hop
    | cons b u => exact ⟨b, u, rfl⟩
  have hab : a = 79 ∧ b = 112 := by
    simpa using hop
  obtain ⟨rfl, rfl⟩ := hab
  refine ⟨?_, by cases latch <;> simp, by cases latch <;> simp⟩
  rw [opusNextFrom]
  rw [if_neg (by simp [hlp])]
  rfl

/-- Witness for C9: a two-byte `O` `p` packet in front of an empty pull
list is skipped without touching `skipped` or `Duration`. -/
theorem op_prefixed_packet_skipped_witness :
    opusNextFrom 0 ⟨0, false, 0⟩ [([79, 112], false)] = opusNextFrom 0 ⟨0, false, 0⟩ [] ∧
    (0 : Int) = 0 ∧ (0 : Int) = 0 :=
  op_prefixed_packet_skipped 0 ⟨0, false, 0⟩ [79, 112] false [] rfl (by decide)

/-! ## Ogg page parsing (`oggreader.go`)

The segment-table walk of `readPageHeader` and the body slicing of
`readPageContent`, as pure functions. -/

/-- The `packetSizes` accumulation of Go `readPageHeader`: walk the
segment table carrying the running `size`; each segment value below 255
closes a packet whose size is the accumulated sum. -/
def packetSizesOf : List Nat → Nat → List Nat
  | [], _ => []
  | s :: rest, size =>
    if s < 255 then (size + s) :: packetSizesOf rest 0
    else packetSizesOf rest (size + s)

/-- The value left in the running `size` accumulator after the walk: the
length of the trailing fragment that continues into the next page. -/
def trailingSizeOf : List Nat → Nat → Nat
  | [], size => size
  | s :: rest, size =>
    if s < 255 then trailingSizeOf rest 0
    else trailingSizeOf rest (size + s)

/-- The body slicing of Go `readPageContent`: `packets[i]` is the slice
of `content` at the recorded boundaries, and the final extra slot
`packets[packetsCount]` is the remainder (the trailing fragment). -/
def slicePackets : List Nat → List Nat → List (List Nat)
  | [], content => [content]
  | n :: ns, content => content.take n :: slicePackets ns (content.drop n)

/-- Segment-table runs: the groups of segment values that make up each
complete packet (a run of 255-valued segments closed by a value < 255),
carrying the currently open run. Formalizes the Ogg specification's
packet lacing that `readPageHeader` walks numerically. -/
def segRuns : List Nat → List Nat → List (List Nat)
  | [], _ => []
  | s :: rest, cur =>
    if s < 255 then (cur ++ [s]) :: segRuns rest []
    else segRuns rest (cur ++ [s])

/-- The run left open at the end of the segment table: the segments of
the trailing fragment. -/
def trailingRun : List Nat → List Nat → List Nat
  | [], cur => cur
  | s :: rest, cur =>
    if s < 255 then trailingRun rest []
    else trailingRun rest (cur ++ [s])

/-- Cut `content` into consecutive slices of the given sizes (the
per-segment slices of a page body, when applied to the segment table). -/
def sliceBy : List Nat → List Nat → List (List Nat)
  | [], _ => []
  | n :: ns, content => content.take n :: sliceBy ns (content.drop n)

/-- For each run of segment sizes, the concatenation of that run's
slices of `content` (advancing by the run's total size). -/
def joinSlices : List (List Nat) → List Nat → List (List Nat)
  | [], _ => []
  | run :: rs, content =>
    (sliceBy run content).flatten :: joinSlices rs (content.drop run.sum)

/-- Go struct `OGGPage` after a successful parse: header type and
granule position, the complete-packet count, and the `packetsCount + 1`
body slices (the last one being the trailing fragment). -/
structure OGGPage where
  headerType : Nat
  granule : Int
  packetsCount : Nat
  packets : List (List Nat)
deriving DecidableEq, Repr

/-- Go `(*OGGPage).isLast`: the end-of-stream bit of the header type. -/
def OGGPage.isLast (p : OGGPage) : Bool := p.headerType &&& 4 != 0

/-- One Ogg page's worth of input bytes, pre-split into the fields the
27-byte little-endian fixed header decodes to, the `SegmentsNumber`-byte
segment table and the body that follows them on the wire. -/
structure PageInput where
  capture : List Nat
  version : Nat
  headerType : Nat
  granule : Int
  serial : Nat
  seq : Nat
  crc : Nat
  segs : List Nat
  body : List Nat
deriving DecidableEq, Repr

/-- Errors (and the runtime panic) of the Ogg layer: a short read from
the stream, "ogg: missing capture pattern", "ogg: unsupported version",
and the index-out-of-range panic. -/
inductive OggErr where
  | shortRead
  | missingCapture
  | unsupportedVersion
  | indexOutOfRange
deriving DecidableEq, Repr

/-- Go `readPage` = `readPageHeader` followed by `readPageContent`:
validate the capture pattern and version, walk the segment table, then
evaluate `segmentTable[SegmentsNumber-1]` — where `SegmentsNumber` is a
`uint8`, so a zero-segment page computes index `(0 - 1) mod 256 = 255`
and panics (`indexOutOfRange`) — and finally read exactly the body and
slice it at the packet boundaries. -/
def readPage (pin : PageInput) : Except OggErr OGGPage :=
  if pin.capture ≠ [79, 103, 103, 83] then .error .missingCapture
  else if pin.version ≠ 0 then .error .unsupportedVersion
  else
    let sizes := packetSizesOf pin.segs 0
    match pin.segs.get? ((pin.segs.length + 255) % 256) with
    | none => .error .indexOutOfRange
    | some _ =>
      if pin.body.length ≠ pin.segs.sum then .error .shortRead
      else .ok { headerType := pin.headerType, granule := pin.granule,
                 packetsCount := sizes.length,
                 packets := slicePackets sizes pin.body }

/-- Mutable fields of Go struct `OGGReader`, with the unread remainder
of the byte stream modelled as the list of pages it still holds. -/
structure OGGReaderState where
  pages : List PageInput
  initialized : Bool
  CurrentPage : OGGPage
  packetIndex : Nat
  lastPacket : Bool
  lastPagePosition : Int
deriving DecidableEq, Repr

/-- The main body of Go `(*OGGReader).NextPacket` once initialized,
with the reader's mutable fields passed explicitly. When the current
page is exhausted it records the granule position (if not −1), reads the
next page, prepends the trailing fragment to that page's first packet
and recurses; otherwise it returns the packet at `packetIndex` and arms
the `lastPacket` latch when this was the last complete packet of an
end-of-stream page. On a read error the returned state keeps the old
`CurrentPage` (Go leaves a partially parsed fresh page there; no claim
inspects it), while `lastPagePosition` reflects the update made before
the failed read. -/
def oggNextLoop : OGGPage → Nat → Bool → Int → List PageInput →
    Except OggErr (List Nat) × OGGReaderState
  | cur, idx, lp, pos, pages =>
    if idx = cur.packetsCount then
      let rest := cur.packets.getD cur.packetsCount []
      let pos1 := if cur.granule ≠ -1 then cur.granule else pos
      match pages with
      | [] => (.error .shortRead, ⟨[], true, cur, idx, lp, pos1⟩)
      | pin :: prest =>
        match readPage pin with
        | .error e => (.error e, ⟨prest, true, cur, idx, lp, pos1⟩)
        | .ok page =>
          let page1 :=
            if rest.length > 0 then
              { page with packets :=
                  match page.packets with
                  | [] => []
                  | p0 :: ps => (rest ++ p0) :: ps }
            else page
          oggNextLoop page1 0 lp pos1 prest
    else
      let packet := cur.packets.getD idx []
      let lp1 := if (idx + 1 == cur.packetsCount) && cur.isLast then true else lp
      (.ok packet, ⟨pages, true, cur, idx + 1, lp1, pos⟩)

/-- Go `(*OGGReader).NextPacket`: on the first call read the first page
and, when its continued-packet flag is set, start at packet index 1;
then run the main loop. -/
def oggNextPacket (st : OGGReaderState) :
    Except OggErr (List Nat) × OGGReaderState :=
  if st.initialized = false then
    match st.pages with
    | [] => (.error .shortRead, st)
    | pin :: prest =>
      match readPage pin with
      | .error e => (.error e, { st with pages := prest })
      | .ok page =>
        let idx := if page.headerType &&& 1 ≠ 0 then 1 else 0
        oggNextLoop page idx st.lastPacket st.lastPagePosition prest
  else
    oggNextLoop st.CurrentPage st.packetIndex st.lastPacket st.lastPagePosition st.pages

/-! ## Claim C5: packet reassembly equals segment concatenation -/

/-- The flattened slices of one run are the first `run.sum` bytes. -/
theorem sliceBy_flatten (run : List Nat) : ∀ content : List Nat,
    (sliceBy run content).flatten = content.take run.sum := by
  induction run with
  | nil => intro c; simp [sliceBy]
  | cons n ns ih =>
    intro c
    simp only [sliceBy, List.flatten_cons, ih, List.sum_cons, List.take_add]

/-- The numeric walk of `readPageHeader` records exactly the sums of the
segment runs. -/
theorem packetSizesOf_eq_runs (segs : List Nat) : ∀ cur : List Nat,
    packetSizesOf segs cur.sum = (segRuns segs cur).map List.sum := by
  induction segs with
  | nil => intro cur; simp [packetSizesOf, segRuns]
  | cons s rest ih =>
    intro cur
    by_cases h : s < 255
    · have h2 : packetSizesOf rest 0 = (segRuns rest []).map List.sum := by
        simpa using ih []
      simp [packetSizesOf, segRuns, if_pos h, h2]
    · simp only [packetSizesOf, segRuns, if_neg h]
      have := ih (cur ++ [s])
      simpa using this

/-- The final `size` accumulator is the trailing run's total. -/
theorem trailingSizeOf_eq_run (segs : List Nat) : ∀ cur : List Nat,
    trailingSizeOf segs cur.sum = (trailingRun segs cur).sum := by
  induction segs with
  | nil => intro cur; simp [trailingSizeOf, trailingRun]
  | cons s rest ih =>
    intro cur
    by_cases h : s < 255
    · simp only [trailingSizeOf, trailingRun, if_pos h]
      simpa using ih []
    · simp only [trailingSizeOf, trailingRun, if_neg h]
      have := ih (cur ++ [s])
      simpa using this

/-- Slicing by the run sums gives, slot by slot, the concatenation of
each run's segment slices. -/
theorem sliceBy_map_sum_eq_joinSlices (runs : List (List Nat)) : ∀ content : List Nat,
    sliceBy (runs.map List.sum) content = joinSlices runs content := by
  induction runs with
  | nil => intro c; simp [sliceBy, joinSlices]
  | cons run rs ih =>
    intro c
    simp only [List.map_cons, sliceBy, joinSlices, sliceBy_flatten, ih]

/-- Within bounds, each slice has exactly its recorded size. -/
theorem sliceBy_lengths (sizes : List Nat) : ∀ content : List Nat,
    sizes.sum ≤ content.length →
    (sliceBy sizes content).map List.length = sizes := by
  induction sizes with
  | nil => intro c _; simp [sliceBy]
  | cons n ns ih =>
    intro c h
    simp only [List.sum_cons] at h
    simp only [sliceBy, List.map_cons, List.length_take]
    congr 1
    · exact Nat.min_eq_left (by omega)
    · apply ih
      simp only [List.length_drop]
      omega

/-- `readPageContent`'s slicing is the bounded slicing plus the
remainder slot. -/
theorem slicePackets_eq_sliceBy (sizes : List Nat) : ∀ content : List Nat,
    slicePackets sizes content = sliceBy sizes content ++ [content.drop sizes.sum] := by
  induction sizes with
  | nil => intro c; simp [slicePackets, sliceBy]
  | cons n ns ih =>
    intro c
    simp only [slicePackets, sliceBy, ih, List.sum_cons, List.cons_append,
      List.drop_drop]

/-- Complete-packet sizes and the trailing size partition the page body. -/
theorem packetSizesOf_sum (segs : List Nat) : ∀ k : Nat,
    (packetSizesOf segs k).sum + trailingSizeOf segs k = k + segs.sum := by
  induction segs with
  | nil => intro k; simp [packetSizesOf, trailingSizeOf]
  | cons s rest ih =>
    intro k
    by_cases h : s < 255
    · simp only [packetSizesOf, trailingSizeOf, if_pos h, List.sum_cons]
      have := ih 0
      omega
    · simp only [packetSizesOf, trailingSizeOf, if_neg h, List.sum_cons]
      have := ih (k + s)
      omega

/-- Appending the trailing run contributes one final joined slice. -/
theorem joinSlices_concat (runs : List (List Nat)) (tr : List Nat) : ∀ c : List Nat,
    joinSlices (runs ++ [tr]) c
      = joinSlices runs c ++ [(sliceBy tr (c.drop (runs.map List.sum).sum)).flatten] := by
  induction runs with
  | nil => intro c; simp [joinSlices]
  | cons r rs ih =>
    intro c
    simp only [List.cons_append, joinSlices, List.map_cons, List.sum_cons,
      List.drop_drop, List.append_eq]
    rw [ih, List.drop_drop]

/-- C5: when a page body has exactly the segment table's total size,
every slot that `readPageContent` produces — the complete packets and the
trailing-fragment slot — equals the concatenation of its constituent
segment slices, each slot's length is the sum of its constituent segment
sizes, and the cross-page packet obtained (as in the Ogg reader's
`NextPacket`) by appending the next page's first packet to the carried
trailing fragment is the concatenation of the two pages' corresponding
segment slices, with length the sum of the two runs' segment sizes. -/
theorem packet_reassembly_concat_segments (segs1 content1 segs2 content2 : List Nat)
    (r0 : List Nat) (rtl : List (List Nat))
    (h1 : content1.length = segs1.sum) (h2 : content2.length = segs2.sum)
    (hr : segRuns segs2 [] = r0 :: rtl) :
    slicePackets (packetSizesOf segs1 0) content1
      = joinSlices (segRuns segs1 [] ++ [trailingRun segs1 []]) content1 ∧
    (slicePackets (packetSizesOf segs1 0) content1).map List.length
      = (segRuns segs1 [] ++ [trailingRun segs1 []]).map List.sum ∧
    ((slicePackets (packetSizesOf segs1 0) content1).getLastD [] ++
       (slicePackets (packetSizesOf segs2 0) content2).headI).length
      = (trailingRun segs1 []).sum + r0.sum ∧
    (slicePackets (packetSizesOf segs1 0) content1).getLastD [] ++
       (slicePackets (packetSizesOf segs2 0) content2).headI
      = (sliceBy (trailingRun segs1 [])
            (content1.drop (packetSizesOf segs1 0).sum)).flatten
        ++ (sliceBy r0 content2).flatten := by
  have hsz1 : packetSizesOf segs1 0 = (segRuns segs1 []).map List.sum := by
    simpa using packetSizesOf_eq_runs segs1 []
  have htr1 : trailingSizeOf segs1 0 = (trailingRun segs1 []).sum := by
    simpa using trailingSizeOf_eq_run segs1 []
  have hsum1 := packetSizesOf_sum segs1 0
  have hle1 : (packetSizesOf segs1 0).sum ≤ content1.length := by omega
  have hdroplen : (content1.drop (packetSizesOf segs1 0).sum).length
      = (trailingRun segs1 []).sum := by
    rw [List.length_drop]; omega
  have hlast : (slicePackets (packetSizesOf segs1 0) content1).getLastD []
      = content1.drop (packetSizesOf segs1 0).sum := by
    rw [slicePackets_eq_sliceBy, List.getLastD_concat]
  have hsz2 : packetSizesOf segs2 0 = r0.sum :: rtl.map List.sum := by
    have h := packetSizesOf_eq_runs segs2 []
    simpa [hr] using h
  have hhead : (slicePackets (packetSizesOf segs2 0) content2).headI
      = content2.take r0.sum := by
    rw [hsz2]
    simp [slicePackets]
  have hs2 := packetSizesOf_sum segs2 0
  have hr0le : r0.sum ≤ content2.length := by
    rw [hsz2] at hs2
    simp only [List.sum_cons] at hs2
    omega
  refine ⟨?_, ?_, ?_, ?_⟩
  · rw [slicePackets_eq_sliceBy, joinSlices_concat, sliceBy_flatten, ← hsz1,
      List.take_of_length_le (le_of_eq hdroplen), hsz1,
      sliceBy_map_sum_eq_joinSlices]
  · rw [slicePackets_eq_sliceBy, List.map_append, sliceBy_lengths _ _ hle1,
      List.map_append]
    simp only [List.map_cons, List.map_nil]
    rw [hdroplen, ← hsz1]
  · rw [hlast, hhead, List.length_append, List.length_drop, List.length_take]
    omega
  · rw [hlast, hhead]
    rw [sliceBy_flatten, List.take_of_length_le (le_of_eq hdroplen),
      sliceBy_flatten]

set_option maxRecDepth 20000 in
/-- Witness for C5: page one has segments `[1, 255]` (one complete
one-byte packet plus a 255-byte trailing fragment) over a 256-byte
body, page two has segment table `[3]` over a 3-byte body. -/
theorem packet_reassembly_concat_segments_witness :
    slicePackets (packetSizesOf [1, 255] 0) (List.replicate 256 7)
      = joinSlices (segRuns [1, 255] [] ++ [trailingRun [1, 255] []])
          (List.replicate 256 7) ∧
    (slicePackets (packetSizesOf [1, 255] 0) (List.replicate 256 7)).map List.length
      = (segRuns [1, 255] [] ++ [trailingRun [1, 255] []]).map List.sum ∧
    ((slicePackets (packetSizesOf [1, 255] 0) (List.replicate 256 7)).getLastD [] ++
       (slicePackets (packetSizesOf [3] 0) [9, 9, 9]).headI).length
      = (trailingRun [1, 255] []).sum + List.sum [3] ∧
    (slicePackets (packetSizesOf [1, 255] 0) (List.replicate 256 7)).getLastD [] ++
       (slicePackets (packetSizesOf [3] 0) [9, 9, 9]).headI
      = (sliceBy (trailingRun [1, 255] [])
            ((List.replicate 256 7).drop (packetSizesOf [1, 255] 0).sum)).flatten
        ++ (sliceBy [3] [9, 9, 9]).flatten :=
  packet_reassembly_concat_segments [1, 255] (List.replicate 256 7) [3] [9, 9, 9]
    [3] [] (by decide) (by decide) (by decide)

/-! ## Claims C6, C7, C8: end-of-stream latch, zero-segment pages,
granule bookkeeping -/

/-- C7 (evaluation at the failing input): parsing an otherwise valid
page with segment count 0 hits the out-of-range access
`segmentTable[SegmentsNumber-1]` — the `uint8` subtraction wraps to
index 255 of an empty table — instead of succeeding as the
specification requires for keepalive pages. -/
theorem zero_segment_page_parse_traps :
    readPage { capture := [79, 103, 103, 83], version := 0, headerType := 0,
               granule := 0, serial := 0, seq := 0, crc := 0, segs := [], body := [] }
      = .error .indexOutOfRange := by
  rfl

/-- Pre-skip bookkeeping never touches the payload bytes. -/
theorem processAudioPacket_packetData (preSkip skipped duration : Int) (p : OPUSPacket) :
    (processAudioPacket preSkip skipped duration p).1.PacketData = p.PacketData := by
  simp only [processAudioPacket]
  split_ifs <;> rfl

/-- C8: when the current page is exhausted, `lastPagePosition` is
updated (to the current page's granule whenever it is not −1) before the
next page is read, so the state returned alongside the end-of-input
error — and alongside a failed page parse — carries the last page's
granule position. -/
theorem granule_update_before_page_read (cur : OGGPage) (lp : Bool) (pos : Int)
    (pin : PageInput) (prest : List PageInput) (e : OggErr)
    (he : readPage pin = .error e) :
    ((oggNextLoop cur cur.packetsCount lp pos []).1 = .error .shortRead ∧
     (oggNextLoop cur cur.packetsCount lp pos []).2.lastPagePosition
       = (if cur.granule ≠ -1 then cur.granule else pos)) ∧
    ((oggNextLoop cur cur.packetsCount lp pos (pin :: prest)).1 = .error e ∧
     (oggNextLoop cur cur.packetsCount lp pos (pin :: prest)).2.lastPagePosition
       = (if cur.granule ≠ -1 then cur.granule else pos)) := by
  constructor
  · rw [oggNextLoop]
    simp
  · rw [oggNextLoop]
    simp [he]

/-- Witness for C8: a page with granule 5 and no packets, against an
empty stream and against a stream whose next page has a bad capture
pattern. -/
theorem granule_update_before_page_read_witness :
    ((oggNextLoop ⟨0, 5, 0, [[]]⟩ 0 false 0 []).1 = .error .shortRead ∧
     (oggNextLoop ⟨0, 5, 0, [[]]⟩ 0 false 0 []).2.lastPagePosition = 5) ∧
    ((oggNextLoop ⟨0, 5, 0, [[]]⟩ 0 false 0
        [⟨[0, 0, 0, 0], 0, 0, 0, 0, 0, 0, [], []⟩]).1 = .error .missingCapture ∧
     (oggNextLoop ⟨0, 5, 0, [[]]⟩ 0 false 0
        [⟨[0, 0, 0, 0], 0, 0, 0, 0, 0, 0, [], []⟩]).2.lastPagePosition = 5) :=
  granule_update_before_page_read ⟨0, 5, 0, [[]]⟩ false 0
    ⟨[0, 0, 0, 0], 0, 0, 0, 0, 0, 0, [], []⟩ [] .missingCapture rfl

/-- C6: (i) a call made with the Opus `LastPacket` latch set fails with
the end-of-stream error before pulling anything; (ii) whenever the Ogg
layer's call returns a packet, its `lastPacket` latch is set exactly
when it was already set or the returned packet was the last complete
packet (`packetIndex` reaches `packetsCount`) of an end-of-stream page;
(iii) the Opus call that pulls a packet arming the latch — one that is
not `Op`-prefixed and whose TOC decodes — still succeeds and returns
that packet, with the Opus latch now set, and it is the immediately
following call that fails with end-of-stream. -/
theorem eos_latch_two_call_behavior (preSkip : Int) (st stA : OPUSReaderState)
    (inputs rest : List OggPull) (pkt : List Nat) (cfg : OPUSPacketConfig)
    (cur : OGGPage) (idx : Nat) (lp : Bool) (pos : Int) (pages : List PageInput) :
    (st.LastPacket = true → opusNextFrom preSkip st inputs = .error .eos) ∧
    (∀ pk st2, oggNextLoop cur idx lp pos pages = (.ok pk, st2) →
        st2.lastPacket
          = (lp || ((st2.packetIndex == st2.CurrentPage.packetsCount)
              && st2.CurrentPage.isLast))) ∧
    (stA.LastPacket = false → readPacketConfig pkt = some cfg →
      pkt.take 2 ≠ [79, 112] →
      ∃ p st2, opusNextFrom preSkip stA ((pkt, true) :: rest) = .ok (p, st2, rest) ∧
        p.PacketData = pkt ∧ st2.LastPacket = true ∧
        opusNextFrom preSkip st2 rest = .error .eos) := by
  refine ⟨?_, ?_, ?_⟩
  · intro h
    rw [opusNextFrom.eq_def]
    simp [h]
  · induction pages generalizing cur idx lp pos with
    | nil =>
      intro pk st2 h
      rw [oggNextLoop] at h
      by_cases hidx : idx = cur.packetsCount
      · rw [if_pos hidx] at h
        simp at h
      · rw [if_neg hidx] at h
        simp only [Prod.mk.injEq] at h
        obtain ⟨-, hst⟩ := h
        subst hst
        by_cases hcond : ((idx + 1 == cur.packetsCount) && cur.isLast) = true
        · simp [hcond]
        · simp only [Bool.not_eq_true] at hcond
          simp [hcond]
    | cons pin prest ih =>
      intro pk st2 h
      rw [oggNextLoop] at h
      by_cases hidx : idx = cur.packetsCount
      · rw [if_pos hidx] at h
        dsimp only at h
        cases hrp : readPage pin with
        | error e =>
          rw [hrp] at h
          simp at h
        | ok page =>
          rw [hrp] at h
          dsimp only at h
          exact ih _ _ _ _ _ _ h
      · rw [if_neg hidx] at h
        simp only [Prod.mk.injEq] at h
        obtain ⟨-, hst⟩ := h
        subst hst
        by_cases hcond : ((idx + 1 == cur.packetsCount) && cur.isLast) = true
        · simp [hcond]
        · simp only [Bool.not_eq_true] at hcond
          simp [hcond]
  · intro hA hc hop
    refine ⟨(processAudioPacket preSkip stA.skipped stA.Duration
        { config := cfg, PacketData := pkt }).1,
      { skipped := (processAudioPacket preSkip stA.skipped stA.Duration
          { config := cfg, PacketData := pkt }).2.1,
        LastPacket := true,
        Duration := (processAudioPacket preSkip stA.skipped stA.Duration
          { config := cfg, PacketData := pkt }).2.2 }, ?_, ?_, rfl, ?_⟩
    · rw [opusNextFrom]
      rw [if_neg (by simp [hA])]
      rw [hc]
      simp only [if_pos rfl]
      rw [if_neg hop]
      rfl
    · exact processAudioPacket_packetData preSkip stA.skipped stA.Duration
        { config := cfg, PacketData := pkt }
    · rw [opusNextFrom.eq_def]
      simp

/-- Witness for C6: a one-packet end-of-stream page (header type 4),
whose single audio packet has TOC byte 0x78; the pull that returns it
arms the latch and the next call fails with end-of-stream. -/
theorem eos_latch_two_call_behavior_witness :
    (opusNextFrom 0 ⟨0, true, 0⟩ [] = .error .eos) ∧
    ((⟨[], true, ⟨4, 7, 1, [[1], []]⟩, 1, true, 0⟩ : OGGReaderState).lastPacket
      = (false || ((1 == (⟨4, 7, 1, [[1], []]⟩ : OGGPage).packetsCount)
          && (⟨4, 7, 1, [[1], []]⟩ : OGGPage).isLast))) ∧
    (∃ p st2, opusNextFrom 0 ⟨0, false, 0⟩ [([120], true)] = .ok (p, st2, []) ∧
      p.PacketData = [120] ∧ st2.LastPacket = true ∧
      opusNextFrom 0 st2 [] = .error .eos) :=
  have h := eos_latch_two_call_behavior 0 ⟨0, true, 0⟩ ⟨0, false, 0⟩ [] [] [120]
    ⟨15, 0, 1, 960, 960⟩ ⟨4, 7, 1, [[1], []]⟩ 0 false 0 []
  ⟨h.1 rfl,
   h.2.1 [1] ⟨[], true, ⟨4, 7, 1, [[1], []]⟩, 1, true, 0⟩ rfl,
   h.2.2 rfl (by decide) (by decide)⟩

/-! ## Opus header parsing (`opusreader.go`, `readIDHeader` / `readTags`) -/

/-- Result of a header parse: success, Go's error return, or the Go
runtime panic raised by an out-of-range index or slice. -/
inductive HdrResult (α : Type) where
  | ok : α → HdrResult α
  | err : String → HdrResult α
  | trap : HdrResult α
deriving DecidableEq, Repr

/-- Go slice expression `l[a:b]`: valid when `a ≤ b ≤ len(l)`, otherwise
a panic (`none`). -/
def sliceQ (l : List Nat) (a b : Nat) : Option (List Nat) :=
  if a ≤ b ∧ b ≤ l.length then some ((l.drop a).take (b - a)) else none

/-- `binary.LittleEndian` decoding of a byte slice. -/
def leNat : List Nat → Nat
  | [] => 0
  | b :: rest => b + 256 * leNat rest

/-- The ASCII bytes of `"OpusHead"`. -/
def opusHeadMagic : List Nat := [79, 112, 117, 115, 72, 101, 97, 100]

/-- The ASCII bytes of `"OpusTags"`. -/
def opusTagsMagic : List Nat := [79, 112, 117, 115, 84, 97, 103, 115]

/-- Go struct `OPUSIDHeader` as `readIDHeader` fills it (the magic
bytes themselves are compared, not stored). -/
structure OPUSIDHeader where
  Version : Nat
  ChannelCount : Nat
  PreSkip : Nat
  InputSampleRate : Nat
  OutputGain : Nat
  ChannelMappingFamily : Nat
deriving DecidableEq, Repr

/-- Go `(*OPUSReader).readIDHeader` applied to the first packet's bytes:
compare `data[:8]` against `"OpusHead"`, read version and channel count,
reject zero channels, decode the three little-endian fields, and reject
a nonzero channel-mapping family — indexing without any length check, so
each access can trap. -/
def readIDHeader (pkt : List Nat) : HdrResult OPUSIDHeader :=
  match sliceQ pkt 0 8 with
  | none => .trap
  | some magic =>
    if magic ≠ opusHeadMagic then .err "opusreader: invalid id header prefix"
    else
      match pkt[8]? with
      | none => .trap
      | some ver =>
        match pkt[9]? with
        | none => .trap
        | some ch =>
          if ch = 0 then .err "opusreader: channels count < 1"
          else
            match sliceQ pkt 10 12 with
            | none => .trap
            | some ps =>
              match sliceQ pkt 12 16 with
              | none => .trap
              | some sr =>
                match sliceQ pkt 16 18 with
                | none => .trap
                | some og =>
                  match pkt[18]? with
                  | none => .trap
                  | some fam =>
                    if fam ≠ 0 then
                      .err "opusreader: for now library supports only channel mapping 0"
                    else
                      .ok { Version := ver, ChannelCount := ch,
                            PreSkip := leNat ps, InputSampleRate := leNat sr,
                            OutputGain := leNat og, ChannelMappingFamily := fam }

/-- Go `(*OPUSReader).readTags` applied to the second packet's bytes:
compare `data[:8]` against `"OpusTags"`, decode the declared vendor
length from `data[8:12]`, and slice the vendor name
`data[12 : 12+length]` — again without length checks. -/
def readTags (pkt : List Nat) : HdrResult (List Nat) :=
  match sliceQ pkt 0 8 with
  | none => .trap
  | some magic =>
    if magic ≠ opusTagsMagic then .err "opusreader: invalid tags header prefix"
    else
      match sliceQ pkt 8 12 with
      | none => .trap
      | some lenb =>
        match sliceQ pkt 12 (12 + leNat lenb) with
        | none => .trap
        | some vendor => .ok vendor

/-! ## Claim C10: header validation performs no length checks -/

/-- A Go slice expression past the length panics. -/
theorem sliceQ_none (l : List Nat) (a b : Nat) (h : l.length < b) :
    sliceQ l a b = none := by
  rw [sliceQ, if_neg (by omega)]

/-- A Go slice expression within bounds yields the slice. -/
theorem sliceQ_some (l : List Nat) (a b : Nat) (h1 : a ≤ b) (h2 : b ≤ l.length) :
    sliceQ l a b = some ((l.drop a).take (b - a)) := by
  rw [sliceQ, if_pos ⟨h1, h2⟩]

/-- C10 counterexample: the 8-byte all-zero first packet is shorter than
19 bytes, yet `readIDHeader` returns the bad-magic error — no access is
out of range, contradicting the claim that every first packet shorter
than 19 bytes traps instead of producing that error. -/
theorem id_header_short_packet_bad_magic_error :
    readIDHeader (List.replicate 8 0) = .err "opusreader: invalid id header prefix" ∧
    (List.replicate 8 0).length < 19 :=
  ⟨rfl, by decide⟩

/-- C10 amended: the parsers index without length checks, so (i) a
packet shorter than 8 bytes traps in either parser before any error;
(ii) a first packet with correct `OpusHead` magic and nonzero channel
byte that is shorter than 19 bytes traps; (iii) the id-prefix error is
returned exactly when the first 8 bytes exist and differ from the magic
(so also for packets shorter than 19 bytes); (iv) a second packet with
correct `OpusTags` magic, at least 12 bytes, but shorter than 12 plus
its declared vendor length traps; (v) the tags-prefix error likewise is
returned exactly when the first 8 bytes exist and differ. -/
theorem header_parsers_index_without_length_checks (pkt : List Nat) :
    (pkt.length < 8 → readIDHeader pkt = .trap ∧ readTags pkt = .trap) ∧
    (pkt.take 8 = opusHeadMagic → pkt[9]? ≠ some 0 → pkt.length < 19 →
      readIDHeader pkt = .trap) ∧
    (readIDHeader pkt = .err "opusreader: invalid id header prefix" ↔
      8 ≤ pkt.length ∧ pkt.take 8 ≠ opusHeadMagic) ∧
    (pkt.take 8 = opusTagsMagic → 12 ≤ pkt.length →
      pkt.length < 12 + leNat ((pkt.drop 8).take 4) →
      readTags pkt = .trap) ∧
    (readTags pkt = .err "opusreader: invalid tags header prefix" ↔
      8 ≤ pkt.length ∧ pkt.take 8 ≠ opusTagsMagic) := by
  refine ⟨?_, ?_, ?_, ?_, ?_⟩
  · intro h
    have hn : sliceQ pkt 0 8 = none := sliceQ_none pkt 0 8 h
    constructor <;> simp [readIDHeader, readTags, hn]
  · intro hm h9 hlen
    have hlen8 : 8 ≤ pkt.length := by
      by_contra hc
      push_neg at hc
      have ht : (pkt.take 8).length = pkt.length := by
        rw [List.length_take]; omega
      rw [hm] at ht
      have h8 : (8 : Nat) = pkt.length := by simpa [opusHeadMagic] using ht
      omega
    unfold readIDHeader
    rw [sliceQ_some pkt 0 8 (by omega) hlen8]
    dsimp only
    rw [if_neg (by simpa using hm)]
    rcases Nat.lt_or_ge pkt.length 9 with h9l | h9g
    · rw [List.getElem?_eq_none (by omega)]
    · rw [List.getElem?_eq_getElem (show 8 < pkt.length by omega)]
      dsimp only
      rcases Nat.lt_or_ge pkt.length 10 with hA | hB
      · rw [List.getElem?_eq_none (by omega)]
      · rw [List.getElem?_eq_getElem (show 9 < pkt.length by omega)]
        dsimp only
        have hch : ¬(pkt[9] = 0) := by
          intro h0
          apply h9
          rw [List.getElem?_eq_getElem (show 9 < pkt.length by omega), h0]
        rw [if_neg hch]
        rcases Nat.lt_or_ge pkt.length 12 with hC | hD
        · rw [sliceQ_none pkt 10 12 (by omega)]
        · rw [sliceQ_some pkt 10 12 (by omega) (by omega)]
          dsimp only
          rcases Nat.lt_or_ge pkt.length 16 with hE | hF
          · rw [sliceQ_none pkt 12 16 (by omega)]
          · rw [sliceQ_some pkt 12 16 (by omega) (by omega)]
            dsimp only
            rcases Nat.lt_or_ge pkt.length 18 with hG | hH
            · rw [sliceQ_none pkt 16 18 (by omega)]
            · rw [sliceQ_some pkt 16 18 (by omega) (by omega)]
              dsimp only
              rw [List.getElem?_eq_none (by omega)]
  · constructor
    · intro h
      unfold readIDHeader at h
      cases hs : sliceQ pkt 0 8 with
      | none => rw [hs] at h; exact absurd h (by simp)
      | some magic =>
        rw [hs] at h
        dsimp only at h
        rw [sliceQ] at hs
        split_ifs at hs with hcond
        have hl8 : 8 ≤ pkt.length := hcond.2
        have hmagic : magic = pkt.take 8 := by
          have := Option.some_inj.mp hs
          simpa using this.symm
        subst hmagic
        by_cases hm : pkt.take 8 ≠ opusHeadMagic
        · exact ⟨hl8, hm⟩
        · exfalso
          rw [if_neg (by simpa using hm)] at h
          cases h8 : pkt[8]? with
          | none => rw [h8] at h; exact absurd h (by simp)
          | some v8 =>
            rw [h8] at h
            dsimp only at h
            cases h9 : pkt[9]? with
            | none => rw [h9] at h; exact absurd h (by simp)
            | some v9 =>
              rw [h9] at h
              dsimp only at h
              by_cases hch : v9 = 0
              · rw [if_pos hch] at h
                exact absurd h (by decide)
              · rw [if_neg hch] at h
                cases hq1 : sliceQ pkt 10 12 with
                | none => rw [hq1] at h; exact absurd h (by simp)
                | some ps =>
                  rw [hq1] at h
                  dsimp only at h
                  cases hq2 : sliceQ pkt 12 16 with
                  | none => rw [hq2] at h; exact absurd h (by simp)
                  | some sr =>
                    rw [hq2] at h
                    dsimp only at h
                    cases hq3 : sliceQ pkt 16 18 with
                    | none => rw [hq3] at h; exact absurd h (by simp)
                    | some og =>
                      rw [hq3] at h
                      dsimp only at h
                      cases h18 : pkt[18]? with
                      | none => rw [h18] at h; exact absurd h (by simp)
                      | some fam =>
                        rw [h18] at h
                        dsimp only at h
                        by_cases hf : fam ≠ 0
                        · rw [if_pos hf] at h
                          exact absurd h (by decide)
                        · rw [if_neg hf] at h
                          exact absurd h (by simp)
    · rintro ⟨hl8, hm⟩
      unfold readIDHeader
      rw [sliceQ_some pkt 0 8 (by omega) hl8]
      dsimp only
      rw [if_pos (by simpa using hm)]
  · intro hm h12 hlen
    unfold readTags
    rw [sliceQ_some pkt 0 8 (by omega) (by omega)]
    dsimp only
    rw [if_neg (by simpa using hm)]
    rw [sliceQ_some pkt 8 12 (by omega) (by omega)]
    dsimp only
    rw [sliceQ_none pkt 12 _ (by simpa using hlen)]
  · constructor
    · intro h
      unfold readTags at h
      cases hs : sliceQ pkt 0 8 with
      | none => rw [hs] at h; exact absurd h (by simp)
      | some magic =>
        rw [hs] at h
        dsimp only at h
        rw [sliceQ] at hs
        split_ifs at hs with hcond
        have hl8 : 8 ≤ pkt.length := hcond.2
        have hmagic : magic = pkt.take 8 := by
          have := Option.some_inj.mp hs
          simpa using this.symm
        subst hmagic
        by_cases hm : pkt.take 8 ≠ opusTagsMagic
        · exact ⟨hl8, hm⟩
        · exfalso
          rw [if_neg (by simpa using hm)] at h
          cases hq1 : sliceQ pkt 8 12 with
          | none => rw [hq1] at h; exact absurd h (by simp)
          | some lenb =>
            rw [hq1] at h
            dsimp only at h
            cases hq2 : sliceQ pkt 12 (12 + leNat lenb) with
            | none => rw [hq2] at h; exact absurd h (by simp)
            | some vendor => rw [hq2] at h; exact absurd h (by simp)
    · rintro ⟨hl8, hm⟩
      unfold readTags
      rw [sliceQ_some pkt 0 8 (by omega) hl8]
      dsimp only
      rw [if_pos (by simpa using hm)]

/-- Witness for the amended C10: a 10-byte packet with correct magic
and channel count 2 traps, and the empty packet traps in `readTags`. -/
theorem header_parsers_index_without_length_checks_witness :
    readIDHeader (opusHeadMagic ++ [1, 2]) = .trap ∧
    readTags [] = .trap :=
  ⟨(header_parsers_index_without_length_checks (opusHeadMagic ++ [1, 2])).2.1
      (by decide) (by decide) (by decide),
   ((header_parsers_index_without_length_checks []).1 (by decide)).2⟩

end OggOpus
